import Mathlib

set_option maxRecDepth 20000

/-!
# TechUp SQL validation / repair engine — shallow embedding

This file embeds, over `List Char`, the pure string-processing functions of the
TechUp repository that the claims C1–C10 are about:

* `src/app.py` — `extract_table_aliases`, `extract_column_references`,
  `extract_order_by_unqualified_columns`, `extract_order_by_qualified_pairs`,
  `find_missing_columns`, `find_missing_order_by_columns`,
  `find_order_by_qualifiers_not_in_from`, `get_present_base_tables`,
  `is_id_like`, `PREFERRED_JOIN_KEYS`, `lookup_preferred_join_key`,
  `choose_best_join_key`, `auto_repair_missing_orderby_join`,
  `qualify_sql`, `build_preview_sql`;
* `src/Pipeline Factory/app.py` — `normalize_sql_for_validation`,
  `is_single_select`, `enforce_read_only`.

The Python sources drive these functions with `re`; the regular expressions are
concrete, so each is embedded as a deterministic scanner that reproduces the
`re` semantics (leftmost non-overlapping matches, greedy/lazy quantifiers,
word-boundary `\b` against the previous character, `$` at end of input or
before a final newline).  The sources only ever see ASCII SQL text, so the
character classes (`\w`, `\s`, `upper()`, `lower()`) are modelled at ASCII
precision.  Python `dict`s are modelled as association lists with
insert-or-overwrite-in-place (`dinsert`) which reproduces insertion-order
iteration; a table's column `set` is modelled as a list in catalog order (the
only order-sensitive use, original-casing selection of a join key, is exact
whenever a table has no two columns that differ only by case).
-/

namespace TechUp

/-! ## Character classes (ASCII precision of Python's `\s`, `\w`, `upper`, `lower`) -/

def isWsC (c : Char) : Bool :=
  c = ' ' || c = '\t' || c = '\n' || c = '\r' || c = '\x0b' || c = '\x0c'

def isAlphaC (c : Char) : Bool :=
  ('a' ≤ c && c ≤ 'z') || ('A' ≤ c && c ≤ 'Z')

def isDigitC (c : Char) : Bool :=
  '0' ≤ c && c ≤ '9'

def isWordC (c : Char) : Bool :=
  isAlphaC c || isDigitC c || c = '_'

def isWordDollarC (c : Char) : Bool :=
  isWordC c || c = '$'

def upC (c : Char) : Char :=
  if 'a' ≤ c && c ≤ 'z' then Char.ofNat (c.toNat - 32) else c

def loC (c : Char) : Char :=
  if 'A' ≤ c && c ≤ 'Z' then Char.ofNat (c.toNat + 32) else c

def upL (s : List Char) : List Char := s.map upC

def loL (s : List Char) : List Char := s.map loC

/-- The single-quote character (spelled via its code point). -/
def sq : Char := Char.ofNat 39

/-! ## Python `str.strip()` -/

def stripLeft (s : List Char) : List Char := s.dropWhile isWsC

def stripRight (s : List Char) : List Char := (s.reverse.dropWhile isWsC).reverse

def pyStrip (s : List Char) : List Char := stripRight (stripLeft s)

/-! ## Generic list helpers shared by the embeddings -/

/-- Python `tok in s` (substring containment). -/
def containsSub (pat : List Char) : List Char → Bool
  | [] => pat.isEmpty
  | c :: cs => pat.isPrefixOf (c :: cs) || containsSub pat cs

/-- Python `c in s` for a single character. -/
def hasChar (s : List Char) (c : Char) : Bool := s.any (fun d => decide (d = c))

/-- membership of a string in a list of strings -/
def containsL (l : List (List Char)) (x : List Char) : Bool :=
  l.any (fun y => decide (y = x))

/-- number of occurrences of a string in a list of strings -/
def countOcc (u : List Char) (l : List (List Char)) : Nat :=
  (l.filter (fun y => decide (y = u))).length

/-- no string occurs twice -/
def nodupB : List (List Char) → Bool
  | [] => true
  | x :: xs => !(containsL xs x) && nodupB xs

/-- Python `dict` assignment `d[k] = v`: overwrite in place, else append. -/
def dinsert {β : Type} (k : List Char) (v : β) :
    List (List Char × β) → List (List Char × β)
  | [] => [(k, v)]
  | (k', v') :: rest =>
    if k' = k then (k, v) :: rest else (k', v') :: dinsert k v rest

/-- Python `d.get(k)` on an association list. -/
def dget {α β : Type} [DecidableEq α] : List (α × β) → α → Option β
  | [], _ => none
  | p :: rest, k => if p.1 = k then some p.2 else dget rest k

/-- first entry whose key matches case-insensitively:
`next((t for t in d if t.upper() == keyU), None)` together with its value -/
def findUpKey {β : Type} : List (List Char × β) → List Char → Option (List Char × β)
  | [], _ => none
  | p :: rest, keyU => if upL p.1 = keyU then some p else findUpKey rest keyU

/-- Python `d.setdefault(k, []).append(v)`. -/
def dappend (k : List Char) (v : List Char) :
    List (List Char × List (List Char)) → List (List Char × List (List Char))
  | [] => [(k, [v])]
  | (k', vs) :: rest =>
    if k' = k then (k', vs ++ [v]) :: rest else (k', vs) :: dappend k v rest

/-- Python `list(dict.fromkeys(l))`: de-duplicate keeping first occurrences. -/
def dedupAux : List (List Char) → List (List Char) → List (List Char)
  | [], _ => []
  | x :: xs, seen =>
    if containsL seen x then dedupAux xs seen else x :: dedupAux xs (x :: seen)

def dedupKeepFirst (l : List (List Char)) : List (List Char) := dedupAux l []

/-- code-point lexicographic `<` (Python string comparison) -/
def lexLt : List Char → List Char → Bool
  | [], [] => false
  | [], _ :: _ => true
  | _ :: _, [] => false
  | a :: l1, b :: l2 => if a = b then lexLt l1 l2 else decide (a < b)

def insertLe (x : List Char) : List (List Char) → List (List Char)
  | [] => [x]
  | y :: ys => if lexLt x y then x :: y :: ys else y :: insertLe x ys

/-- Python `sorted` (ascending, code-point lexicographic). -/
def sortLex : List (List Char) → List (List Char)
  | [] => []
  | x :: xs => insertLe x (sortLex xs)

/-- Python `s.replace(Char.ofNat 34, empty)`: drop all double quotes. -/
def stripQ (s : List Char) : List Char := s.filter (fun c => !(c = '"'))

/-- Python `ident.split(dot)[-1]`: the text after the last `.`. -/
def lastDotSegAux : List Char → List Char → List Char
  | [], cur => cur.reverse
  | '.' :: cs, _ => lastDotSegAux cs []
  | c :: cs, cur => lastDotSegAux cs (c :: cur)

def lastDotSeg (s : List Char) : List Char := lastDotSegAux s []

/-! ## `normalize_sql_for_validation` (src/Pipeline Factory/app.py lines 21–30) -/

def TICKS : List Char := "```".data

/-- `re.sub(r"^BT BT BT[a-zA-Z]*\s*", empty, s)` where BT is a backtick:
at most one match, anchored at the start. -/
def stripFenceHead (s : List Char) : List Char :=
  if TICKS.isPrefixOf s then ((s.drop 3).dropWhile isAlphaC).dropWhile isWsC else s

/-- `re.sub(r"BT BT BT\s*$", empty, s)`: the leftmost match of this pattern is the
final run of three backticks followed only by whitespace, when there is one. -/
def stripFenceTail (s : List Char) : List Char :=
  let r := stripRight s
  if TICKS.isSuffixOf r then r.take (r.length - 3) else s

/-- `if s.endswith(";"): s = s[:-1]` -/
def dropTrailingSemi (s : List Char) : List Char :=
  if [';'].isSuffixOf s then s.dropLast else s

def normalize_sql_for_validation (x : List Char) : List Char :=
  pyStrip (dropTrailingSemi (pyStrip (stripFenceTail (stripFenceHead (pyStrip x)))))

/-! ## `is_single_select` (src/Pipeline Factory/app.py lines 79–87) -/

def headOK (s : List Char) : Bool :=
  decide (upL ((stripLeft s).take 6) = "SELECT".data) ||
    decide (upL ((stripLeft s).take 4) = "WITH".data)

def is_single_select (x : List Char) : Bool :=
  let s := normalize_sql_for_validation x
  if s.isEmpty then false
  else if hasChar s ';' then false
  else headOK s

/-! ## `enforce_read_only` (src/Pipeline Factory/app.py lines 89–96) -/

def PROHIBITED_KEYWORDS : List (List Char) :=
  ["INSERT".data, "UPDATE".data, "DELETE".data, "MERGE".data, "TRUNCATE".data,
   "CREATE".data, "ALTER".data, "DROP".data, "GRANT".data, "REVOKE".data,
   "COPY".data, "CALL".data, "USE".data, "SET".data]

def padKw (kw : List Char) : List Char := ' ' :: kw ++ [' ']

def enforce_read_only (s : List Char) : Bool :=
  let padded := ' ' :: upL s ++ [' ']
  !(PROHIBITED_KEYWORDS.any (fun kw => containsSub (padKw kw) padded))

/-! ## `build_preview_sql` (src/app.py lines 289–299) -/

def PREVIEW_HEAD : List Char := "\nwith __q as (\n".data

def PREVIEW_TAIL : List Char := "\n)\nselect * from __q limit 3\n".data

/-- `build_preview_sql(sql_text)`; a `None` argument is the `none` case of the
`(sql_text or "")` guard. -/
def build_preview_sql (x : Option (List Char)) : List Char :=
  PREVIEW_HEAD ++ dropTrailingSemi (pyStrip (x.getD [])) ++ PREVIEW_TAIL

/-- The claim's reading of the preview body: strip surrounding whitespace and
remove at most one trailing semicolon (formulated over the reversed text, to be
compared with the source's `endswith` + slicing formulation). -/
def previewBody (x : Option (List Char)) : List Char :=
  let s := pyStrip (x.getD [])
  match s.reverse with
  | c :: r => if c = ';' then r.reverse else s
  | [] => s

/-! ## Regex building blocks

The identifier regexes of src/app.py use two segment forms: a double-quoted
segment with non-empty body, or a bare `[A-Za-z_][\w$]*` word (maximal munch;
no backtracking is ever needed because the context following a segment can
never consume a word character). -/

/-- One segment, returned as matched (quotes included). -/
def pIdentSeg : List Char → Option (List Char × List Char)
  | [] => none
  | c :: cs =>
    if c = '"' then
      match cs.takeWhile (fun d => !(d = '"')), cs.dropWhile (fun d => !(d = '"')) with
      | [], _ => none
      | inner, '"' :: rest => some ('"' :: inner ++ ['"'], rest)
      | _, _ => none
    else if isAlphaC c || c = '_' then
      some (c :: cs.takeWhile isWordDollarC, cs.dropWhile isWordDollarC)
    else none

/-- Case-insensitive literal match; the pattern is given in lower case. -/
def matchCI : List Char → List Char → Option (List Char)
  | [], s => some s
  | _ :: _, [] => none
  | p :: ps, c :: cs => if upC c = upC p then matchCI ps cs else none

/-- Case-insensitive literal match that also returns the consumed original text. -/
def matchCIK : List Char → List Char → Option (List Char × List Char)
  | [], s => some ([], s)
  | _ :: _, [] => none
  | p :: ps, c :: cs =>
    if upC c = upC p then
      match matchCIK ps cs with
      | some (tk, rest) => some (c :: tk, rest)
      | none => none
    else none

/-- `\s+` (greedy). -/
def wsPlus : List Char → Option (List Char)
  | c :: cs => if isWsC c then some (cs.dropWhile isWsC) else none
  | [] => none

/-- `\b` before a word character: satisfied at the start of the text or after a
non-word character. -/
def boundaryBefore (prev : Option Char) : Bool :=
  match prev with
  | none => true
  | some p => !(isWordC p)

/-! ## `extract_table_aliases` (src/app.py lines 362–380)

Regex (with ci and dotall flags):
`\b(FROM|JOIN)\s+(SEG(\.SEG)(zero to two))\s*(?:AS\s+)?(?:"([^"]+)"|[A-Za-z_][\w$]*)?`
iterated by `finditer`. -/

/-- `(?:\.SEG)` -/
def pDotSeg : List Char → Option (List Char × List Char)
  | '.' :: cs =>
    match pIdentSeg cs with
    | some (tok, rest) => some ('.' :: tok, rest)
    | none => none
  | _ => none

/-- the dotted path: one segment plus at most two `.SEG` repetitions (greedy) -/
def pPath (s : List Char) : Option (List Char × List Char) :=
  match pIdentSeg s with
  | none => none
  | some (t1, r1) =>
    match pDotSeg r1 with
    | none => some (t1, r1)
    | some (t2, r2) =>
      match pDotSeg r2 with
      | none => some (t1 ++ t2, r2)
      | some (t3, r3) => some (t1 ++ t2 ++ t3, r3)

/-- the optional alias token: quoted (the group captures the inner text) or bare -/
def pAliasTok : List Char → Option (List Char × List Char)
  | '"' :: cs =>
    match cs.takeWhile (fun d => !(d = '"')), cs.dropWhile (fun d => !(d = '"')) with
    | [], _ => none
    | inner, '"' :: rest => some (inner, rest)
    | _, _ => none
  | s => pIdentSeg s

/-- `\s*(?:AS\s+)?(?:ALIAS)?`: greedy whitespace, an optional `AS` keyword that
only commits when followed by whitespace, then an optional alias token. -/
def pAliasPart (s : List Char) : Option (List Char) × List Char :=
  let s1 := s.dropWhile isWsC
  let s2 :=
    match s1 with
    | a :: b :: rest =>
      if upC a = 'A' && upC b = 'S' then
        match rest with
        | c :: cs => if isWsC c then cs.dropWhile isWsC else s1
        | [] => s1
      else s1
    | _ => s1
  match pAliasTok s2 with
  | some (tok, rest) => (some tok, rest)
  | none => (none, s2)

/-- one attempted match of the FROM/JOIN alias regex at the current position
(the leading `\b` is checked by the caller) -/
def fjMatchAt (s : List Char) : Option ((List Char × Option (List Char)) × List Char) :=
  let afterKw :=
    match matchCI "from".data s with
    | some r => some r
    | none => matchCI "join".data s
  match afterKw with
  | none => none
  | some r =>
    match wsPlus r with
    | none => none
    | some r1 =>
      match pPath r1 with
      | none => none
      | some (ident, r2) =>
        let (al, r3) := pAliasPart r2
        some ((ident, al), r3)

/-- `finditer` over the alias regex, folding each match into the dict exactly as
the Python loop body does. -/
def fjScan : Nat → Option Char → List Char → List (List Char × List Char) →
    List (List Char × List Char)
  | 0, _, _, acc => acc
  | _ + 1, _, [], acc => acc
  | fuel + 1, prev, c :: cs, acc =>
    if boundaryBefore prev then
      match fjMatchAt (c :: cs) with
      | some ((ident, al), rest) =>
        let s := c :: cs
        let consumed := s.take (s.length - rest.length)
        let base := stripQ (lastDotSeg ident)
        let acc' :=
          match al with
          | some a =>
            let a' := pyStrip a
            if a'.isEmpty then dinsert base base acc else dinsert (stripQ a') base acc
          | none => dinsert base base acc
        fjScan fuel consumed.getLast? rest acc'
      | none => fjScan fuel (some c) cs acc
    else fjScan fuel (some c) cs acc

def extract_table_aliases (s : List Char) : List (List Char × List Char) :=
  fjScan (s.length + 1) none s []

/-! ## `extract_column_references` (src/app.py lines 382–392)

Regex: `(SEG)\s*\.\s*(SEG)`, no word boundaries, `finditer`. -/

def pairMatchAt (s : List Char) : Option ((List Char × List Char) × List Char) :=
  match pIdentSeg s with
  | none => none
  | some (ltok, r1) =>
    match r1.dropWhile isWsC with
    | '.' :: r2 =>
      match pIdentSeg (r2.dropWhile isWsC) with
      | none => none
      | some (rtok, r3) => some ((stripQ ltok, stripQ rtok), r3)
    | _ => none

def pairScan : Nat → List Char → List (List Char × List Char)
  | 0, _ => []
  | _ + 1, [] => []
  | fuel + 1, c :: cs =>
    match pairMatchAt (c :: cs) with
    | some (pr, rest) => pr :: pairScan fuel rest
    | none => pairScan fuel cs

def extract_column_references (s : List Char) : List (List Char × List Char) :=
  pairScan (s.length + 1) s

/-! ## ORDER BY clause extraction (src/app.py lines 426–448 and 491–503)

Clause regex (ci, dotall): `\border\s+by\s+(.*?)(?:(?:limit|offset|fetch)\b|$)`.
The lazy group stops at the first position where a terminator keyword (followed
by a word boundary) matches — the keywords carry no *leading* boundary — or at
`$` (end of input, or just before a final newline). -/

/-- a keyword match followed by `\b` -/
def kwB (kw : List Char) (s : List Char) : Option (List Char) :=
  match matchCI kw s with
  | some rest =>
    match rest with
    | [] => some rest
    | d :: _ => if isWordC d then none else some rest
  | none => none

def obTermAt (s : List Char) : Option (List Char) :=
  match kwB "limit".data s with
  | some r => some r
  | none =>
    match kwB "offset".data s with
    | some r => some r
    | none =>
      match kwB "fetch".data s with
      | some r => some r
      | none =>
        match s with
        | [] => some []
        | ['\n'] => some ['\n']
        | _ => none

/-- the lazy `(.*?)` group: shortest prefix whose end admits a terminator -/
def obClause : Nat → List Char → List Char → List Char × List Char
  | 0, acc, s => (acc.reverse, s)
  | fuel + 1, acc, s =>
    match obTermAt s with
    | some rest => (acc.reverse, rest)
    | none =>
      match s with
      | [] => (acc.reverse, [])
      | c :: cs => obClause fuel (c :: acc) cs

/-- `\border\s+by\s+` -/
def obStartAt (s : List Char) : Option (List Char) :=
  match matchCI "order".data s with
  | none => none
  | some r1 =>
    match wsPlus r1 with
    | none => none
    | some r2 =>
      match matchCI "by".data r2 with
      | none => none
      | some r3 => wsPlus r3

def obScan : Nat → Option Char → List Char → List (List Char)
  | 0, _, _ => []
  | _ + 1, _, [] => []
  | fuel + 1, prev, c :: cs =>
    if boundaryBefore prev then
      match obStartAt (c :: cs) with
      | some r =>
        let s := c :: cs
        let (cl, rest) := obClause (r.length + 1) [] r
        let consumed := s.take (s.length - rest.length)
        cl :: obScan fuel consumed.getLast? rest
      | none => obScan fuel (some c) cs
    else obScan fuel (some c) cs

def orderByClauses (s : List Char) : List (List Char) :=
  obScan (s.length + 1) none s

def extract_order_by_qualified_pairs (s : List Char) : List (List Char × List Char) :=
  ((orderByClauses s).map (fun cl => pairScan (cl.length + 1) cl)).flatten

/-- `re.split(r",(?![^()]*\))", clause)`: a comma splits unless the first
paren character after it is a closing paren. -/
def splitTopCommas : Nat → List Char → List Char → List (List Char)
  | 0, cur, _ => [cur.reverse]
  | _ + 1, cur, [] => [cur.reverse]
  | fuel + 1, cur, c :: cs =>
    if c = ',' then
      match cs.dropWhile (fun d => !(d = '(') && !(d = ')')) with
      | ')' :: _ => splitTopCommas fuel (c :: cur) cs
      | _ => cur.reverse :: splitTopCommas fuel [] cs
    else splitTopCommas fuel (c :: cur) cs

/-- `re.sub(r"\b(asc|desc)\b", empty, token)` -/
def subAscDesc : Nat → Option Char → List Char → List Char
  | 0, _, s => s
  | _ + 1, _, [] => []
  | fuel + 1, prev, c :: cs =>
    let s := c :: cs
    if boundaryBefore prev then
      match kwB "asc".data s with
      | some rest =>
        let consumed := s.take (s.length - rest.length)
        subAscDesc fuel consumed.getLast? rest
      | none =>
        match kwB "desc".data s with
        | some rest =>
          let consumed := s.take (s.length - rest.length)
          subAscDesc fuel consumed.getLast? rest
        | none => c :: subAscDesc fuel (some c) cs
    else c :: subAscDesc fuel (some c) cs

/-- `re.sub(r"nulls\s+(first|last)", empty, token)` (no word boundaries) -/
def subNulls : Nat → List Char → List Char
  | 0, s => s
  | _ + 1, [] => []
  | fuel + 1, c :: cs =>
    let m :=
      match matchCI "nulls".data (c :: cs) with
      | none => none
      | some r1 =>
        match wsPlus r1 with
        | none => none
        | some r2 =>
          match matchCI "first".data r2 with
          | some r3 => some r3
          | none => matchCI "last".data r2
    match m with
    | some rest => subNulls fuel rest
    | none => c :: subNulls fuel cs

/-- `re.match(r"^[A-Za-z_][\w$]*$|^"[^"]+"$", token)` -/
def isSimpleIdentTok : List Char → Bool
  | [] => false
  | c :: cs =>
    if c = '"' then
      match cs.reverse with
      | '"' :: innerRev => !innerRev.isEmpty && innerRev.all (fun d => !(d = '"'))
      | _ => false
    else (isAlphaC c || c = '_') && cs.all isWordDollarC

/-- the per-part body of the Python loop in `extract_order_by_unqualified_columns` -/
def obTokenCol (p : List Char) : Option (List Char) :=
  let t0 := pyStrip p
  let t1 := subAscDesc (t0.length + 1) none t0
  let t2 := subNulls (t1.length + 1) t1
  let t := pyStrip t2
  if t.isEmpty then none
  else if hasChar t '(' then none
  else if hasChar t '.' then none
  else if isSimpleIdentTok t then some (stripQ t) else none

def extract_order_by_unqualified_columns (s : List Char) : List (List Char) :=
  ((orderByClauses s).map (fun cl =>
    (splitTopCommas (cl.length + 1) [] cl).filterMap obTokenCol)).flatten

/-! ## Catalog validation (src/app.py lines 394–415 and 450–489)

A schema catalog maps a table name to its columns (a Python `set`, modelled as
a list in catalog order). -/

abbrev Catalog := List (List Char × List (List Char))

/-- the per-reference test of `find_missing_columns`: the resolved base table is
looked up among the catalog keys case-insensitively (first match), and the
column is compared case-insensitively against that table's columns -/
def fmcIsMissing (cat : Catalog) (base c : List Char) : Bool :=
  match findUpKey cat (upL base) with
  | none => true
  | some p => !(containsL (p.2.map upL) (upL c))

def fmcMissing (aliases : List (List Char × List Char)) (cat : Catalog) :
    List (List Char × List Char) → List (List Char)
  | [] => []
  | (q, c) :: rest =>
    let base := (dget aliases q).getD q
    if fmcIsMissing cat base c then (base ++ '.' :: c) :: fmcMissing aliases cat rest
    else fmcMissing aliases cat rest

def find_missing_columns (s : List Char) (cat : Catalog) : List (List Char) :=
  sortLex (dedupKeepFirst
    (fmcMissing (extract_table_aliases s) cat (extract_column_references s)))

/-- the reverse index `col_to_tables` of `find_missing_order_by_columns`:
upper-cased column name → tables containing it, in catalog order -/
def colToTables (cat : Catalog) : List (List Char × List (List Char)) :=
  cat.foldl (fun d p => p.2.foldl (fun d' c => dappend (upL c) p.1 d') d) []

def noteQualify (col t : List Char) : List Char :=
  "Qualify ORDER BY ".data ++ col ++ " with table ".data ++ t ++
    " (unqualified reference).".data

def joinCommaSp : List (List Char) → List Char
  | [] => []
  | [t] => t
  | t :: rest => t ++ ", ".data ++ joinCommaSp rest

def noteMulti (col : List Char) (ts : List (List Char)) : List Char :=
  "ORDER BY column ".data ++ col ++ " exists in multiple tables: ".data ++
    joinCommaSp ts ++ ". Qualify explicitly.".data

/-- the multi-table outcome of one loop iteration, branching on the candidate
tables exactly as the code's `len(candidate_tables)` chain does -/
def fmobMultiStep (col : List Char) (cand : List (List Char))
    (r : List (List Char) × List (List Char)) :
    List (List Char) × List (List Char) :=
  match cand with
  | [] => (col :: r.1, r.2)
  | [t] => (r.1, noteQualify col t :: r.2)
  | t1 :: t2 :: ts => (r.1, noteMulti col (t1 :: t2 :: ts) :: r.2)

/-- the loop of `find_missing_order_by_columns`: note that the single-table
branch looks the base table up among the catalog keys with an exact-case
comparison (`base not in schema_catalog`) -/
def fmobLoop (bt : List (List Char)) (cat : Catalog)
    (c2t : List (List Char × List (List Char))) :
    List (List Char) → List (List Char) × List (List Char)
  | [] => ([], [])
  | col :: rest =>
    let r := fmobLoop bt cat c2t rest
    match bt with
    | [b] =>
      let miss :=
        match dget cat b with
        | none => true
        | some cols => !(containsL (cols.map upL) (upL col))
      if miss then ((b ++ '.' :: col) :: r.1, r.2) else (r.1, r.2)
    | [] => fmobMultiStep col ((dget c2t (upL col)).getD []) r
    | _ :: _ :: _ => fmobMultiStep col ((dget c2t (upL col)).getD []) r

def find_missing_order_by_columns (s : List Char) (cat : Catalog) :
    List (List Char) × List (List Char) :=
  let aliases := extract_table_aliases s
  let bt := if aliases.isEmpty then [] else dedupKeepFirst (aliases.map (fun p => p.2))
  let unq := extract_order_by_unqualified_columns s
  if unq.isEmpty then ([], [])
  else
    let r := fmobLoop bt cat (colToTables cat) unq
    (sortLex (dedupKeepFirst r.1), r.2)

/-- Spec-side description of the unqualified-ORDER-BY validation, written from
the spec's words (per-column classification, the candidate tables computed
directly as the catalog tables whose column sets contain the column
case-insensitively), to be compared with the reverse-index implementation. -/
def tablesContaining (cat : Catalog) (col : List Char) : List (List Char) :=
  (cat.filter (fun p => p.2.any (fun c2 => decide (upL c2 = upL col)))).map (fun p => p.1)

def fmobSpecLoop (bt : List (List Char)) (cat : Catalog) :
    List (List Char) → List (List Char) × List (List Char)
  | [] => ([], [])
  | col :: rest =>
    let r := fmobSpecLoop bt cat rest
    match bt with
    | [b] =>
      let ok :=
        match dget cat b with
        | none => false
        | some cols => cols.any (fun c2 => decide (upL c2 = upL col))
      if ok then (r.1, r.2) else ((b ++ '.' :: col) :: r.1, r.2)
    | [] => fmobMultiStep col (tablesContaining cat col) r
    | _ :: _ :: _ => fmobMultiStep col (tablesContaining cat col) r

def find_missing_order_by_columns_spec (s : List Char) (cat : Catalog) :
    List (List Char) × List (List Char) :=
  let aliases := extract_table_aliases s
  let bt := if aliases.isEmpty then [] else dedupKeepFirst (aliases.map (fun p => p.2))
  let unq := extract_order_by_unqualified_columns s
  if unq.isEmpty then ([], [])
  else
    let r := fmobSpecLoop bt cat unq
    (sortLex (dedupKeepFirst r.1), r.2)

/-! ## ORDER BY qualifiers not in FROM/JOIN (src/app.py lines 505–521) -/

def find_order_by_qualifiers_not_in_from (s : List Char) : List (List Char) :=
  let aliases := extract_table_aliases s
  let ak := aliases.map (fun p => upL p.1)
  let bv := aliases.map (fun p => upL p.2)
  let invalid := (extract_order_by_qualified_pairs s).filterMap
    (fun pr => if containsL ak (upL pr.1) || containsL bv (upL pr.1) then none else some pr.1)
  sortLex (dedupKeepFirst invalid)

def get_present_base_tables (s : List Char) : List (List Char) :=
  (dedupKeepFirst ((extract_table_aliases s).map (fun p => p.2))).map stripQ

/-! ## Join-key choice (src/app.py lines 523–567) -/

def is_id_like (col : List Char) : Bool :=
  let cu := upL col
  decide (cu = "ID".data) || "_ID".data.isSuffixOf cu || "ID".data.isSuffixOf cu ||
    "_KEY".data.isSuffixOf cu

def PREFERRED_JOIN_KEYS : List ((List Char × List Char) × List Char) :=
  [(("DT_DRIVERS".data, "DT_DRIVER_PERFORMANCE".data), "DriverID".data),
   (("DT_DRIVER_PERFORMANCE".data, "DT_DRIVERS".data), "DriverID".data)]

/-- `{c.upper(): c for c in catalog.get(t, set())}` in catalog-column order -/
def colsUpperMap (cat : Catalog) (t : List Char) : List (List Char × List Char) :=
  ((dget cat t).getD []).foldl (fun acc c => dinsert (upL c) c acc) []

def lookup_preferred_join_key (a b : List Char) (cat : Catalog) : Option (List Char) :=
  match dget PREFERRED_JOIN_KEYS (upL a, upL b) with
  | none => none
  | some pref =>
    let ca := colsUpperMap cat a
    let cb := colsUpperMap cat b
    if (dget ca (upL pref)).isSome && (dget cb (upL pref)).isSome then
      some ((dget ca (upL pref)).getD pref)
    else none

def choose_best_join_key (a b : List Char) (cat : Catalog) : Option (List Char) :=
  match lookup_preferred_join_key a b cat with
  | some p => some p
  | none =>
    let ca := colsUpperMap cat a
    let cb := colsUpperMap cat b
    let common := (ca.map (fun p => p.1)).filter (fun u => (dget cb u).isSome)
    match common.filter is_id_like with
    | u :: _ => dget ca u
    | [] =>
      match common with
      | u :: _ => dget ca u
      | [] => none

/-! ## `auto_repair_missing_orderby_join` (src/app.py lines 594–644)

The FROM-clause span is located with
`(?is)(\bfrom\s+[^\n;]+?)\s*(\bwhere\b|\bgroup\s+by\b|\border\s+by\b|\blimit\b|$)`
(`re.search`: only the existence of a match is consumed below, because the
function next evaluates
`re.search(rf"(?i)\bjoin\s+\Q ... \E\b", sql_text)` — and Python's `re`
rejects the `\Q` escape (`re.error: bad escape \Q`), so every run that reaches
that line raises.  The embedding returns `Except.error ()` for that raise. -/

/-- `k1\s+k2\b` -/
def kwPairB (k1 k2 : List Char) (s : List Char) : Option (List Char) :=
  match matchCI k1 s with
  | none => none
  | some r1 =>
    match wsPlus r1 with
    | none => none
    | some r2 => kwB k2 r2

/-- the terminator group of the FROM-span regex, tried after the greedy `\s*`;
`boundaryOk` tells whether a `\b` holds before a word character here -/
def fsTermAt (boundaryOk : Bool) (s : List Char) : Bool :=
  if s.isEmpty then true
  else
    boundaryOk &&
      ((kwB "where".data s).isSome || (kwPairB "group".data "by".data s).isSome ||
        (kwPairB "order".data "by".data s).isSome || (kwB "limit".data s).isSome)

/-- the lazy `[^\n;]+?` group after its first character: at each stop the greedy
`\s*` plus the terminator group is probed, otherwise the content grows by one
(non-newline, non-semicolon) character -/
def fsLazy : Nat → Char → List Char → Bool
  | 0, _, _ => false
  | fuel + 1, prevC, s =>
    let wsRun := s.takeWhile isWsC
    let rest := s.dropWhile isWsC
    let bOk := if wsRun.isEmpty then !(isWordC prevC) else true
    if fsTermAt bOk rest then true
    else
      match s with
      | [] => false
      | c :: cs => if c = '\n' || c = ';' then false else fsLazy fuel c cs

def fsFromAt (s : List Char) : Option (List Char) :=
  match matchCI "from".data s with
  | none => none
  | some r => wsPlus r

/-- `re.search` of the FROM-span regex: does it match anywhere? -/
def hasFromSpan : Nat → Option Char → List Char → Bool
  | 0, _, _ => false
  | _ + 1, _, [] => false
  | fuel + 1, prev, c :: cs =>
    (if boundaryBefore prev then
      match fsFromAt (c :: cs) with
      | some r =>
        match r with
        | d :: ds => if d = '\n' || d = ';' then false else fsLazy (ds.length + 1) d ds
        | [] => false
      | none => false
    else false) || hasFromSpan fuel (some c) cs

def pickJoinBase : List (List Char) → List Char → Catalog →
    Option (List Char × List Char)
  | [], _, _ => none
  | b :: bs, mt, cat =>
    match choose_best_join_key b mt cat with
    | some k => some (b, k)
    | none => pickJoinBase bs mt cat

/-- `auto_repair_missing_orderby_join(sql_text, database, schema, catalog)`.
`Except.error ()` models the `re.error` raised by the invalid `\Q` escape on
the only path that would go on to build a repaired string. -/
def auto_repair_missing_orderby_join (sql _db _schema : List Char) (cat : Catalog) :
    Except Unit (Option (List Char)) :=
  if sql.isEmpty then .ok none
  else
    match find_order_by_qualifiers_not_in_from sql with
    | [] => .ok none
    | mtable :: _ =>
      match get_present_base_tables sql with
      | [] => .ok none
      | presentBases =>
        match pickJoinBase presentBases mtable cat with
        | none => .ok none
        | some _ =>
          if hasFromSpan (sql.length + 1) none sql then .error ()
          else .ok none

/-! ## `qualify_sql` (src/app.py lines 301–325)

Regex: `(?i)\b(FROM|JOIN)\s+(\(?\s*(?:"[^"]+"|[A-Za-z_][\w$]*))(\b)` with a
replacement function; `re.sub` copies unmatched characters through.  The
trailing `(\b)` forces a quoted identifier to be followed by a word character
(otherwise there is no boundary after the closing quote and the match fails),
and makes a bare identifier give back any trailing `$` characters. -/

def quoteIdent (x : List Char) : List Char :=
  '"' :: (x.foldr (fun c acc => if c = '"' then '"' :: '"' :: acc else c :: acc) []) ++ ['"']

/-- the identifier alternative of group 2 together with the trailing `(\b)` -/
def qualIdentB : List Char → Option (List Char × List Char)
  | [] => none
  | c :: cs =>
    if c = '"' then
      match cs.takeWhile (fun d => !(d = '"')), cs.dropWhile (fun d => !(d = '"')) with
      | [], _ => none
      | inner, '"' :: rest =>
        match rest with
        | d :: _ => if isWordC d then some ('"' :: inner ++ ['"'], rest) else none
        | [] => none
      | _, _ => none
    else if isAlphaC c || c = '_' then
      let tok := c :: cs.takeWhile isWordDollarC
      let rest := cs.dropWhile isWordDollarC
      let revTok := tok.reverse
      let kept := (revTok.dropWhile (fun d => d = '$')).reverse
      let dollars := revTok.takeWhile (fun d => d = '$')
      some (kept, dollars ++ rest)
    else none

/-- group 2: `\(?\s*` then the identifier -/
def qualGroup2 : List Char → Option (List Char × List Char)
  | '(' :: cs =>
    let ws := cs.takeWhile isWsC
    match qualIdentB (cs.dropWhile isWsC) with
    | some (tok, rest) => some ('(' :: ws ++ tok, rest)
    | none => none
  | s => qualIdentB s

def qualMatchAt (s : List Char) : Option (List Char × List Char × List Char) :=
  let kw :=
    match matchCIK "from".data s with
    | some r => some r
    | none => matchCIK "join".data s
  match kw with
  | none => none
  | some (kwTok, r) =>
    match wsPlus r with
    | none => none
    | some r1 =>
      match qualGroup2 r1 with
      | some (g2, rest) => some (kwTok, g2, rest)
      | none => none

/-- the replacement function `repl` -/
def qualRepl (qdb qschema kwTok g2 : List Char) : List Char :=
  let identStrip := pyStrip g2
  let skip :=
    (match identStrip with
     | '(' :: _ => true
     | '@' :: _ => true
     | _ => false) ||
      hasChar identStrip '.' || "table(".data.isPrefixOf (loL identStrip)
  if skip then kwTok ++ ' ' :: g2
  else kwTok ++ ' ' :: qdb ++ '.' :: qschema ++ '.' :: g2

def qualScan (qdb qschema : List Char) : Nat → Option Char → List Char → List Char
  | 0, _, s => s
  | _ + 1, _, [] => []
  | fuel + 1, prev, c :: cs =>
    if boundaryBefore prev then
      match qualMatchAt (c :: cs) with
      | some (kwTok, g2, rest) =>
        let s := c :: cs
        let consumed := s.take (s.length - rest.length)
        qualRepl qdb qschema kwTok g2 ++ qualScan qdb qschema fuel consumed.getLast? rest
      | none => c :: qualScan qdb qschema fuel (some c) cs
    else c :: qualScan qdb qschema fuel (some c) cs

def qualify_sql (s db schema : List Char) : List Char :=
  if s.isEmpty then s
  else qualScan (quoteIdent db) (quoteIdent schema) (s.length + 1) none s

/-! ## Claim-side predicates

These formalise the wording of the claims (not the code) and are used to state
the claims and their corrections. -/

/-- the keyword occurs with a space (or an end of the text) on both sides -/
def spaceDelimitedOccurs (kw s : List Char) : Prop :=
  ∃ pre post, s = pre ++ kw ++ post ∧
    (pre = [] ∨ ∃ p, pre = p ++ [' ']) ∧
    (post = [] ∨ ∃ q, post = ' ' :: q)

/-- the keyword occurs at token boundaries: any non-word character (or an end
of the text) on both sides — the boundary notion asserted by claim C3 -/
def wholeWordOccurs (kw s : List Char) : Prop :=
  ∃ pre post, s = pre ++ kw ++ post ∧
    (pre = [] ∨ ∃ p c, pre = p ++ [c] ∧ isWordC c = false) ∧
    (post = [] ∨ ∃ c q, post = c :: q ∧ isWordC c = false)

/-- Modelled from the spec (§4.1 Lexical Scanner): track single-quoted strings
(a doubled quote toggles out and back in, so every character between the pair
is classified as quoted), double-quoted identifiers, dollar-quoted blocks, and
a paren depth; report a semicolon outside all quoting at paren depth ≤ 0.
Used only to state what claim C4 asserts about the classifier. -/
def topSemiScan : Nat → List Char → Bool → Bool → Bool → Int → Bool
  | 0, _, _, _, _, _ => false
  | _ + 1, [], _, _, _, _ => false
  | fuel + 1, c :: cs, inS, inD, inDol, depth =>
    if inS then
      if c = sq then topSemiScan fuel cs false inD inDol depth
      else topSemiScan fuel cs true inD inDol depth
    else if inD then
      if c = '"' then topSemiScan fuel cs inS false inDol depth
      else topSemiScan fuel cs inS true inDol depth
    else if inDol then
      if c = '$' then
        match cs with
        | '$' :: cs2 => topSemiScan fuel cs2 false false false depth
        | _ => topSemiScan fuel cs inS inD inDol depth
      else topSemiScan fuel cs inS inD inDol depth
    else if c = '$' then
      match cs with
      | '$' :: cs2 => topSemiScan fuel cs2 false false true depth
      | _ => topSemiScan fuel cs inS inD inDol depth
    else if c = sq then topSemiScan fuel cs true inD inDol depth
    else if c = '"' then topSemiScan fuel cs inS true inDol depth
    else if c = '(' then topSemiScan fuel cs inS inD inDol (depth + 1)
    else if c = ')' then topSemiScan fuel cs inS inD inDol (depth - 1)
    else if c = ';' then
      if depth ≤ 0 then true else topSemiScan fuel cs inS inD inDol depth
    else topSemiScan fuel cs inS inD inDol depth

def hasTopLevelSemicolon (s : List Char) : Bool :=
  topSemiScan (s.length + 1) s false false false 0

/-- `SELECT ';'` — the semicolon sits inside a single-quoted string literal -/
def exC4 : List Char := "SELECT ".data ++ [sq, ';', sq]

/-- pointwise equality up to letter case of two column lists -/
def upEqL : List (List Char) → List (List Char) → Bool
  | [], [] => true
  | c :: cs, d :: ds => decide (upL c = upL d) && upEqL cs ds
  | _, _ => false

/-- two catalogs are re-casings of one another: same tables and same columns in
the same order, each equal up to letter case -/
def recasedB : Catalog → Catalog → Bool
  | [], [] => true
  | p :: ps, q :: qs => decide (upL p.1 = upL q.1) && upEqL p.2 q.2 && recasedB ps qs
  | _, _ => false

/-! ## Helper lemmas about stripping -/

theorem dropWhile_self (p : Char → Bool) (l : List Char) :
    (l.dropWhile p).dropWhile p = l.dropWhile p := by
  induction l with
  | nil => rfl
  | cons c cs ih =>
    by_cases h : p c = true
    · simp [List.dropWhile_cons, h, ih]
    · simp [List.dropWhile_cons, h]

theorem stripLeft_idem (s : List Char) : stripLeft (stripLeft s) = stripLeft s :=
  dropWhile_self isWsC s

theorem stripRight_idem (s : List Char) : stripRight (stripRight s) = stripRight s := by
  unfold stripRight
  rw [List.reverse_reverse, dropWhile_self]

theorem stripLeft_suffix (s : List Char) : stripLeft s <:+ s :=
  List.dropWhile_suffix isWsC

theorem stripRight_initial (s : List Char) : stripRight s <+: s := by
  have h : s.reverse.dropWhile isWsC <:+ s.reverse := List.dropWhile_suffix isWsC
  have h2 := List.reverse_prefix.mpr h
  rw [List.reverse_reverse] at h2
  exact h2

theorem pyStrip_fix_left {s : List Char} (h : pyStrip s = s) : stripLeft s = s := by
  have h1 : s.length ≤ (stripLeft s).length := by
    have := (stripRight_initial (stripLeft s)).length_le
    rw [show stripRight (stripLeft s) = pyStrip s from rfl, h] at this
    exact this
  exact (stripLeft_suffix s).eq_of_length (Nat.le_antisymm (stripLeft_suffix s).length_le h1)

theorem pyStrip_fix_right {s : List Char} (h : pyStrip s = s) : stripRight s = s := by
  have hl := pyStrip_fix_left h
  unfold pyStrip at h
  rwa [hl] at h

theorem stripLeft_stripRight_of_fix {t : List Char} (ht : stripLeft t = t) :
    stripLeft (stripRight t) = stripRight t := by
  obtain ⟨u, hu⟩ := stripRight_initial t
  cases h : stripRight t with
  | nil => rfl
  | cons c cr =>
    have hc : isWsC c = false := by
      rw [h] at hu
      by_contra hcc
      rw [Bool.not_eq_false] at hcc
      have h2 : stripLeft t = stripLeft (cr ++ u) := by
        rw [← hu]
        simp [stripLeft, List.dropWhile_cons, hcc]
      rw [ht] at h2
      have hlen := congrArg List.length h2
      have hle := (stripLeft_suffix (cr ++ u)).length_le
      rw [← hu] at hlen
      simp only [List.cons_append, List.length_cons] at hlen
      omega
    simp [stripLeft, List.dropWhile_cons, hc]

theorem pyStrip_idem (s : List Char) : pyStrip (pyStrip s) = pyStrip s := by
  show stripRight (stripLeft (stripRight (stripLeft s))) = stripRight (stripLeft s)
  rw [stripLeft_stripRight_of_fix (stripLeft_idem s)]
  exact stripRight_idem _

theorem normalize_stripped (x : List Char) :
    pyStrip (normalize_sql_for_validation x) = normalize_sql_for_validation x := by
  unfold normalize_sql_for_validation
  exact pyStrip_idem _

/-! ## Claim C8 -/

/-- Claim C8 counterexample: `normalize_sql_for_validation` is *not* idempotent.
On the input consisting of two semicolons, one application leaves a single
semicolon (only the final one is dropped), and a second application removes
it, so applying the normalization twice differs from applying it once. -/
theorem c8_counterexample :
    normalize_sql_for_validation (normalize_sql_for_validation ";;".data) ≠
      normalize_sql_for_validation ";;".data := by decide

/-- Claim C8 (amended): the fence-stripping normalization is idempotent on
every input whose normalized form does not itself begin with a code fence, end
with a code fence, or end with a semicolon; re-normalizing such an output is
the identity.  (The counterexample shows the unconditional claim fails when
the first pass uncovers a new trailing semicolon; uncovered fences fail the
same way.) -/
theorem c8_amended (x : List Char)
    (h1 : TICKS.isPrefixOf (normalize_sql_for_validation x) = false)
    (h2 : TICKS.isSuffixOf (normalize_sql_for_validation x) = false)
    (h3 : [';'].isSuffixOf (normalize_sql_for_validation x) = false) :
    normalize_sql_for_validation (normalize_sql_for_validation x) =
      normalize_sql_for_validation x := by
  have hs : pyStrip (normalize_sql_for_validation x) = normalize_sql_for_validation x :=
    normalize_stripped x
  have hR : stripRight (normalize_sql_for_validation x) = normalize_sql_for_validation x :=
    pyStrip_fix_right hs
  conv_lhs => rw [normalize_sql_for_validation]
  rw [hs]
  rw [stripFenceHead, if_neg (by simp [h1]), stripFenceTail, hR, if_neg (by simp [h2]),
    hs, dropTrailingSemi, if_neg (by simp [h3]), hs]

/-- Witness for the amended C8: a fenced, semicolon-terminated model answer
normalizes to a clean statement satisfying the three side conditions, and the
theorem applies to it. -/
theorem c8_amended_witness :
    (TICKS.isPrefixOf (normalize_sql_for_validation " ```sql\nSELECT 1;\n``` ".data) = false) ∧
      (TICKS.isSuffixOf (normalize_sql_for_validation " ```sql\nSELECT 1;\n``` ".data) = false) ∧
      ([';'].isSuffixOf (normalize_sql_for_validation " ```sql\nSELECT 1;\n``` ".data) = false) ∧
      normalize_sql_for_validation
          (normalize_sql_for_validation " ```sql\nSELECT 1;\n``` ".data) =
        normalize_sql_for_validation " ```sql\nSELECT 1;\n``` ".data :=
  ⟨by decide, by decide, by decide,
    c8_amended " ```sql\nSELECT 1;\n``` ".data (by decide) (by decide) (by decide)⟩

/-! ## Claim C10 -/

theorem singleton_isSuffixOf_iff (a : Char) (l : List Char) :
    [a].isSuffixOf l = true ↔ l.reverse.head? = some a := by
  rw [List.isSuffixOf_iff_suffix]
  constructor
  · rintro ⟨t, ht⟩
    rw [← ht]
    simp
  · intro h
    cases hr : l.reverse with
    | nil => rw [hr] at h; simp at h
    | cons c cr =>
      rw [hr] at h
      simp only [List.head?_cons, Option.some.injEq] at h
      have hl : l = cr.reverse ++ [c] := by
        have := congrArg List.reverse hr
        rwa [List.reverse_reverse, List.reverse_cons] at this
      exact ⟨cr.reverse, by rw [hl, h]⟩

/-- Claim C10: `build_preview_sql` strips surrounding whitespace, removes at
most one trailing semicolon, and embeds the remaining text verbatim inside the
fixed `with __q as ( ... ) select * from __q limit 3` wrapper; a missing
(`None`) input is treated as empty, and the function is total. -/
theorem c10_build_preview (x : Option (List Char)) :
    build_preview_sql x = PREVIEW_HEAD ++ previewBody x ++ PREVIEW_TAIL := by
  unfold build_preview_sql previewBody
  cases hr : (pyStrip (x.getD [])).reverse with
  | nil =>
    have hs : pyStrip (x.getD []) = [] := by
      have := congrArg List.reverse hr
      rwa [List.reverse_reverse] at this
    rw [hs]
    rfl
  | cons c cr =>
    have hl : pyStrip (x.getD []) = cr.reverse ++ [c] := by
      have := congrArg List.reverse hr
      rwa [List.reverse_reverse, List.reverse_cons] at this
    simp only [hr]
    by_cases hc : c = ';'
    · subst hc
      have hsuf : [';'].isSuffixOf (pyStrip (x.getD [])) = true := by
        rw [singleton_isSuffixOf_iff, hr]
        rfl
      rw [dropTrailingSemi, if_pos hsuf, hl, List.dropLast_concat]
      simp
    · have hsuf : [';'].isSuffixOf (pyStrip (x.getD [])) = false := by
        rw [Bool.eq_false_iff]
        intro hcon
        rw [singleton_isSuffixOf_iff, hr] at hcon
        simp only [List.head?_cons, Option.some.injEq] at hcon
        exact hc hcon
      rw [dropTrailingSemi, if_neg (by simp [hsuf])]
      simp [hc]

/-! ## Claim C4 -/

/-- Claim C4 counterexample: the classifier rejects `SELECT ';'` even though
its only semicolon lies inside a single-quoted string literal.  The code's
check is a plain `';' in s`, blind to quoting and paren depth; the quote-aware
reading of the claim finds no top-level semicolon, and the other rejection
grounds (empty text, non-SELECT head) pass, so the rejection happens exactly
on the multiple-statements ground where the claim demands acceptance. -/
theorem c4_counterexample :
    is_single_select exC4 = false ∧
      hasTopLevelSemicolon (normalize_sql_for_validation exC4) = false ∧
      (normalize_sql_for_validation exC4).isEmpty = false ∧
      headOK (normalize_sql_for_validation exC4) = true :=
  ⟨by decide, by decide, by decide, by decide⟩

/-- Claim C4 (amended): after normalization (which also strips one layer of
code fences), a non-empty, SELECT/WITH-headed candidate is rejected if and
only if *any* semicolon remains anywhere in the normalized text — quoting and
paren depth are not consulted, so semicolons inside single-quoted literals
also reject. -/
theorem c4_amended (x : List Char)
    (hne : (normalize_sql_for_validation x).isEmpty = false)
    (hhead : headOK (normalize_sql_for_validation x) = true) :
    is_single_select x = false ↔
      hasChar (normalize_sql_for_validation x) ';' = true := by
  unfold is_single_select
  rw [if_neg (by simp [hne])]
  cases h : hasChar (normalize_sql_for_validation x) ';'
  · simp [h, hhead]
  · simp [h]

/-- Witness for the amended C4 at `SELECT 1; SELECT 2`: hypotheses hold and
both sides of the equivalence are true. -/
theorem c4_amended_witness :
    ((normalize_sql_for_validation "SELECT 1; SELECT 2".data).isEmpty = false) ∧
      (headOK (normalize_sql_for_validation "SELECT 1; SELECT 2".data) = true) ∧
      (is_single_select "SELECT 1; SELECT 2".data = false ↔
        hasChar (normalize_sql_for_validation "SELECT 1; SELECT 2".data) ';' = true) :=
  ⟨by decide, by decide, c4_amended "SELECT 1; SELECT 2".data (by decide) (by decide)⟩

/-! ## Claim C3 -/

theorem containsSub_iff (pat s : List Char) :
    containsSub pat s = true ↔ ∃ u v, s = u ++ pat ++ v := by
  induction s with
  | nil =>
    simp only [containsSub, List.isEmpty_iff]
    constructor
    · intro h
      exact ⟨[], [], by simp [h]⟩
    · rintro ⟨u, v, huv⟩
      have hp : pat.length = 0 := by
        have h0 := congrArg List.length huv
        simp [List.length_append] at h0
        omega
      exact List.length_eq_zero.mp hp
  | cons c cs ih =>
    simp only [containsSub, Bool.or_eq_true, ih, List.isPrefixOf_iff_prefix]
    constructor
    · rintro (⟨t, ht⟩ | ⟨u, v, huv⟩)
      · exact ⟨[], t, by simp [← ht]⟩
      · exact ⟨c :: u, v, by simp [huv]⟩
    · rintro ⟨u, v, huv⟩
      cases u with
      | nil =>
        exact Or.inl ⟨v, by simpa using huv.symm⟩
      | cons a u' =>
        rw [List.cons_append, List.cons_append] at huv
        injection huv with h1 h2
        exact Or.inr ⟨u', v, by simpa using h2⟩

theorem concat_inj {A B : List Char} {a b : Char} (h : A ++ [a] = B ++ [b]) :
    A = B ∧ a = b := by
  have h2 := List.append_inj' h (by rfl)
  exact ⟨h2.1, by simpa using h2.2⟩

theorem cons_inj_chars {a b : Char} {l m : List Char} (h : a :: l = b :: m) :
    a = b ∧ l = m := by
  injection h with h1 h2
  exact ⟨h1, h2⟩

theorem padded_sub_iff (kw s : List Char) :
    containsSub (padKw kw) (' ' :: s ++ [' ']) = true ↔ spaceDelimitedOccurs kw s := by
  rw [containsSub_iff]
  constructor
  · rintro ⟨u, v, huv⟩
    have huv' : (' ' :: s) ++ [' '] = u ++ ((' ' :: kw) ++ [' ']) ++ v := by
      simpa [padKw, List.cons_append, List.append_assoc] using huv
    rcases List.eq_nil_or_concat v with rfl | ⟨w, a, rfl⟩
    · rw [List.append_nil, ← List.append_assoc] at huv'
      have h3 := concat_inj huv'
      cases u with
      | nil =>
        have h4 : s = kw := by simpa using h3.1
        exact ⟨[], [], by simp [h4], Or.inl rfl, Or.inl rfl⟩
      | cons b u' =>
        obtain ⟨hb, h4⟩ : ' ' = b ∧ s = u' ++ ' ' :: kw := by
          simpa [List.cons_append] using h3.1
        refine ⟨u' ++ [' '], [], ?_, Or.inr ⟨u', rfl⟩, Or.inl rfl⟩
        rw [h4]
        simp
    · rw [List.concat_eq_append, ← List.append_assoc, ← List.append_assoc] at huv'
      have h3 := concat_inj huv'
      cases u with
      | nil =>
        have h4 : s = kw ++ ' ' :: w := by
          simpa [List.cons_append, List.append_assoc] using h3.1
        refine ⟨[], ' ' :: w, ?_, Or.inl rfl, Or.inr ⟨w, rfl⟩⟩
        rw [h4]
        simp
      | cons b u' =>
        obtain ⟨hb, h4⟩ : ' ' = b ∧ s = u' ++ ' ' :: (kw ++ ' ' :: w) := by
          simpa [List.cons_append, List.append_assoc] using h3.1
        refine ⟨u' ++ [' '], ' ' :: w, ?_, Or.inr ⟨u', rfl⟩, Or.inr ⟨w, rfl⟩⟩
        rw [h4]
        simp
  · rintro ⟨pre, post, rfl, hpre, hpost⟩
    rcases hpre with rfl | ⟨p, rfl⟩ <;> rcases hpost with rfl | ⟨q, rfl⟩
    · exact ⟨[], [], by simp [padKw]⟩
    · exact ⟨[], q ++ [' '], by simp [padKw]⟩
    · exact ⟨' ' :: p, [], by simp [padKw]⟩
    · exact ⟨' ' :: p, q ++ [' '], by simp [padKw]⟩

/-- Claim C3 counterexample: in `SELECT 1;USE DB` the keyword `USE` occurs at
token boundaries (preceded by `;`, followed by a space), so the claimed
whole-word rule demands rejection — but `enforce_read_only` accepts, because
its matching requires a literal space on both sides of the keyword. -/
theorem c3_counterexample :
    enforce_read_only "SELECT 1;USE DB".data = true ∧
      wholeWordOccurs "USE".data (upL "SELECT 1;USE DB".data) :=
  ⟨by decide,
    ⟨"SELECT 1;".data, " DB".data, by decide,
      Or.inr ⟨"SELECT 1".data, ';', by decide, by decide⟩,
      Or.inr ⟨' ', "DB".data, by decide, by decide⟩⟩⟩

/-- Claim C3 (amended): the read-only check rejects a text if and only if one
of the fourteen keywords INSERT, UPDATE, DELETE, MERGE, TRUNCATE, CREATE,
ALTER, DROP, GRANT, REVOKE, COPY, CALL, USE, SET occurs in the upper-cased
text delimited by a *space* (or an end of the text) on both sides — not by
general token boundaries; a keyword adjacent to punctuation (e.g. directly
after a semicolon) is not flagged.  The claim's two examples still hold:
`SELECT USER_ID FROM T` is accepted and `SELECT 1; USE DB` is rejected. -/
theorem c3_amended (s : List Char) :
    (enforce_read_only s = false ↔
      ∃ kw ∈ PROHIBITED_KEYWORDS, spaceDelimitedOccurs kw (upL s)) ∧
      enforce_read_only "SELECT USER_ID FROM T".data = true ∧
      enforce_read_only "SELECT 1; USE DB".data = false := by
  refine ⟨?_, by decide, by decide⟩
  unfold enforce_read_only
  rw [Bool.not_eq_false', List.any_eq_true]
  constructor
  · rintro ⟨kw, hkw, h⟩
    exact ⟨kw, hkw, (padded_sub_iff kw (upL s)).mp h⟩
  · rintro ⟨kw, hkw, h⟩
    exact ⟨kw, hkw, (padded_sub_iff kw (upL s)).mpr h⟩

/-! ## Claim C5 -/

theorem upEqL_map : ∀ {cs ds : List (List Char)}, upEqL cs ds = true →
    cs.map upL = ds.map upL
  | [], [], _ => rfl
  | c :: cs, d :: ds, h => by
    simp only [upEqL, Bool.and_eq_true, decide_eq_true_eq] at h
    simp only [List.map_cons, h.1, upEqL_map h.2]

theorem fmcIsMissing_recased :
    ∀ {cat cat' : Catalog}, recasedB cat cat' = true →
      ∀ base c, fmcIsMissing cat base c = fmcIsMissing cat' base c := by
  intro cat
  induction cat with
  | nil =>
    intro cat' h base c
    cases cat' with
    | nil => rfl
    | cons q qs => simp [recasedB] at h
  | cons p ps ih =>
    intro cat' h base c
    cases cat' with
    | nil => simp [recasedB] at h
    | cons q qs =>
      simp only [recasedB, Bool.and_eq_true, decide_eq_true_eq] at h
      obtain ⟨⟨hk, hcols⟩, hrest⟩ := h
      unfold fmcIsMissing findUpKey
      by_cases hp : upL p.1 = upL base
      · rw [if_pos hp, if_pos (by rw [← hk]; exact hp)]
        simp only [upEqL_map hcols]
      · rw [if_neg hp, if_neg (by rw [← hk]; exact hp)]
        exact ih hrest base c

theorem fmcMissing_recased {cat cat' : Catalog} (h : recasedB cat cat' = true)
    (aliases : List (List Char × List Char)) :
    ∀ refs, fmcMissing aliases cat refs = fmcMissing aliases cat' refs := by
  intro refs
  induction refs with
  | nil => rfl
  | cons r rest ih =>
    obtain ⟨q, c⟩ := r
    simp only [fmcMissing, fmcIsMissing_recased h, ih]

/-- Claim C5 counterexample: qualifier resolution through the alias map is
*exact-case*, not case-insensitive.  In `SELECT O.X FROM ORDERS o` the alias
map is `{o → ORDERS}`; resolving the qualifier `O` case-insensitively would
find `ORDERS` (second conjunct) whose columns contain `X` (third conjunct), so
the claim demands no missing entry — but `aliases.get(qual, qual)` misses on
case, `O` fails the catalog lookup and `O.X` is reported missing (first
conjunct). -/
theorem c5_counterexample :
    find_missing_columns "SELECT O.X FROM ORDERS o".data
        [("ORDERS".data, ["X".data])] = ["O.X".data] ∧
      findUpKey (extract_table_aliases "SELECT O.X FROM ORDERS o".data) (upL "O".data) =
        some ("o".data, "ORDERS".data) ∧
      containsL (["X".data].map upL) (upL "X".data) = true :=
  ⟨by decide, by decide, by decide⟩

/-- Claim C5 (amended): comparisons *against the catalog* are case-insensitive
in `find_missing_columns` — recasing the catalog's table keys and column names
(pointwise) never changes the result, because table keys are matched by
upper-cased comparison (first match) and column membership is checked
upper-cased; but resolution of a qualifier through the alias map is
exact-case (and the single-table branch of `find_missing_order_by_columns`
matches its base table against catalog keys exact-case, see C7). -/
theorem c5_amended (s : List Char) {cat cat' : Catalog}
    (h : recasedB cat cat' = true) :
    find_missing_columns s cat = find_missing_columns s cat' := by
  unfold find_missing_columns
  rw [fmcMissing_recased h]

/-- Witness for the amended C5: a lower-case query against an upper-case
catalog and its lower-cased recasing give the same (empty) missing list. -/
theorem c5_amended_witness :
    recasedB [("ORDERS".data, ["X".data])] [("orders".data, ["x".data])] = true ∧
      find_missing_columns "SELECT o.x FROM orders o".data
          [("ORDERS".data, ["X".data])] =
        find_missing_columns "SELECT o.x FROM orders o".data
          [("orders".data, ["x".data])] :=
  ⟨by decide, c5_amended _ (by decide)⟩

/-! ## Claim C6 -/

/-- Claim C6 counterexample: the alias regex greedily captures the *next bare
word* as an alias, so in `SELECT * FROM T WHERE X = 1` the bare target `T`
(which has no alias) does not map to itself: the keyword `WHERE` is captured
as its alias and the map is `{WHERE → T}`, with no entry for `T` at all. -/
theorem c6_counterexample :
    extract_table_aliases "SELECT * FROM T WHERE X = 1".data =
        [("WHERE".data, "T".data)] ∧
      dget (extract_table_aliases "SELECT * FROM T WHERE X = 1".data) "T".data = none :=
  ⟨by decide, by decide⟩

/-- Claim C6 (amended): each FROM/JOIN match contributes exactly one entry,
with the target followed by an alias (or by any bare word, including an SQL
keyword mistaken for an alias) mapping that word to the base table's simple
name, and a bare target followed by no word mapping its simple name to
itself.  Concretely: the spec's example maps `o → ORDERS, c → CUSTOMERS`;
`SELECT * FROM T` maps `T → T`; and `SELECT * FROM T ORDER BY X` maps
`ORDER → T` (the keyword is captured as the alias). -/
theorem c6_amended :
    extract_table_aliases
        "FROM A.B.ORDERS o JOIN A.B.CUSTOMERS c ON o.customer_id = c.customer_id".data =
      [("o".data, "ORDERS".data), ("c".data, "CUSTOMERS".data)] ∧
      extract_table_aliases "SELECT * FROM T".data = [("T".data, "T".data)] ∧
      extract_table_aliases "SELECT * FROM T ORDER BY X".data =
        [("ORDER".data, "T".data)] :=
  ⟨by decide, by decide, by decide⟩

/-! ## Claim C7

The reverse-index implementation of `find_missing_order_by_columns` is shown
to agree with the spec-side per-column classification: the entry of the
reverse index at an upper-cased column name equals the list of catalog tables
whose column set contains that column case-insensitively — provided no table
carries two columns differing only by case (otherwise the index lists a table
once per variant, while a Python `set` of columns would too). -/

theorem containsL_map_upL (l : List (List Char)) (x : List Char) :
    containsL (l.map upL) x = l.any (fun c2 => decide (upL c2 = x)) := by
  unfold containsL
  rw [List.any_map]
  rfl

theorem countOcc_cons (u y : List Char) (l : List (List Char)) :
    countOcc u (y :: l) = (if y = u then 1 else 0) + countOcc u l := by
  unfold countOcc
  by_cases h : y = u
  · simp [List.filter_cons, h, Nat.add_comm]
  · simp [List.filter_cons, h]

theorem countOcc_nodup {l : List (List Char)} (h : nodupB l = true) (u : List Char) :
    countOcc u l = if containsL l u then 1 else 0 := by
  induction l with
  | nil => simp [countOcc, containsL]
  | cons y ys ih =>
    simp only [nodupB, Bool.and_eq_true, Bool.not_eq_true'] at h
    obtain ⟨hny, hnd⟩ := h
    rw [countOcc_cons, ih hnd]
    by_cases hy : y = u
    · subst hy
      rw [hny]
      simp [containsL]
    · simp only [if_neg hy, Nat.zero_add]
      have : containsL (y :: ys) u = containsL ys u := by
        simp [containsL, List.any_cons, hy]
      rw [this]

theorem dget_dappend (k v u : List Char) :
    ∀ d, (dget (dappend k v d) u).getD [] =
      (dget d u).getD [] ++ (if u = k then [v] else []) := by
  intro d
  induction d with
  | nil =>
    by_cases h : u = k
    · subst h
      simp [dappend, dget]
    · simp [dappend, dget, h, Ne.symm h]
  | cons p rest ih =>
    obtain ⟨k', vs⟩ := p
    unfold dappend
    by_cases hk : k' = k
    · rw [if_pos hk]
      simp only [dget]
      by_cases h : k' = u
      · rw [if_pos h, if_pos h, if_pos (h.symm.trans hk)]
        simp
      · rw [if_neg h, if_neg h, if_neg (fun hh => h (hk.trans hh.symm))]
        simp
    · rw [if_neg hk]
      simp only [dget]
      by_cases h : k' = u
      · rw [if_pos h, if_pos h, if_neg (fun hh => hk (h.trans hh))]
        simp
      · rw [if_neg h, if_neg h]
        exact ih

theorem dget_colsFold (t u : List Char) :
    ∀ (cols : List (List Char)) (d : List (List Char × List (List Char))),
      (dget (cols.foldl (fun d' c => dappend (upL c) t d') d) u).getD [] =
        (dget d u).getD [] ++ List.replicate (countOcc u (cols.map upL)) t := by
  intro cols
  induction cols with
  | nil =>
    intro d
    simp [countOcc]
  | cons c cs ih =>
    intro d
    rw [List.foldl_cons, ih, dget_dappend, List.map_cons, countOcc_cons]
    by_cases h : upL c = u
    · rw [if_pos h, if_pos h.symm, Nat.add_comm, List.replicate_succ, List.append_assoc]
      rfl
    · rw [if_neg h, if_neg (fun hh => h hh.symm)]
      simp

theorem dget_colToTables {cat : Catalog}
    (hAll : cat.all (fun p => nodupB (p.2.map upL)) = true) (u : List Char) :
    (dget (colToTables cat) u).getD [] =
      (cat.filter (fun p => p.2.any (fun c2 => decide (upL c2 = u)))).map
        (fun p => p.1) := by
  suffices h : ∀ (l : Catalog), l.all (fun p => nodupB (p.2.map upL)) = true →
      ∀ d, (dget (l.foldl (fun d p => p.2.foldl (fun d' c => dappend (upL c) p.1 d') d) d) u).getD [] =
        (dget d u).getD [] ++
          (l.filter (fun p => p.2.any (fun c2 => decide (upL c2 = u)))).map (fun p => p.1) by
    have h2 := h cat hAll []
    simpa [colToTables, dget] using h2
  intro l
  induction l with
  | nil =>
    intro _ d
    simp
  | cons p ps ih =>
    intro hAll2 d
    simp only [List.all_cons, Bool.and_eq_true] at hAll2
    rw [List.foldl_cons, ih hAll2.2, dget_colsFold, countOcc_nodup hAll2.1,
      containsL_map_upL]
    simp only [List.filter_cons]
    by_cases hc : p.2.any (fun c2 => decide (upL c2 = u)) = true
    · rw [if_pos hc, if_pos hc]
      simp [List.append_assoc, List.replicate]
    · rw [if_neg (by simp [hc]), if_neg (by simp [hc])]
      simp

theorem fmobLoop_spec {cat : Catalog}
    (hAll : cat.all (fun p => nodupB (p.2.map upL)) = true)
    (bt : List (List Char)) :
    ∀ cols, fmobLoop bt cat (colToTables cat) cols = fmobSpecLoop bt cat cols := by
  intro cols
  induction cols with
  | nil => rfl
  | cons col rest ih =>
    simp only [fmobLoop, fmobSpecLoop, ih]
    cases bt with
    | nil =>
      simp only [dget_colToTables hAll, tablesContaining]
    | cons b bt' =>
      cases bt' with
      | nil =>
        cases hf : dget cat b with
        | none => simp [hf]
        | some cols2 =>
          simp only [hf, containsL_map_upL]
          cases hq : cols2.any (fun c2 => decide (upL c2 = upL col)) <;> simp [hq]
      | cons b2 bt'' =>
        simp only [dget_colToTables hAll, tablesContaining]

/-- Claim C7 counterexample: in the single-present-table branch the base table
is matched against the catalog keys *exact-case*.  For
`SELECT * FROM t ORDER BY c` with catalog `{T: {c}}`, the single present base
table `t` names (case-insensitively) the catalog table `T`, whose columns do
contain `c` (second and third conjuncts) — so the claim reports nothing
missing; but the code's `base not in schema_catalog` misses on case and the
column is reported missing as `t.c` (first conjunct). -/
theorem c7_counterexample :
    find_missing_order_by_columns "SELECT * FROM t ORDER BY c".data
        [("T".data, ["c".data])] = (["t.c".data], []) ∧
      upL "t".data = upL "T".data ∧
      (["c".data] : List (List Char)).any
        (fun c2 => decide (upL c2 = upL "c".data)) = true :=
  ⟨by decide, by decide, by decide⟩

/-- Claim C7 (amended): unqualified ORDER BY validation follows the claimed
branching, with one correction: in the single-present-table branch the base
table must match a catalog key *exactly* (case-sensitively); given such a
match the column check is case-insensitive.  With multiple (or zero) present
base tables, the reverse index decides exactly as claimed — zero containing
tables yields a missing entry, exactly one yields a qualification advisory,
more than one yields an advisory naming all candidates — which this theorem
states as equality with a direct per-column classification built without a
reverse index (for catalogs where no table has two columns differing only by
case). -/
theorem c7_amended (s : List Char) {cat : Catalog}
    (hAll : cat.all (fun p => nodupB (p.2.map upL)) = true) :
    find_missing_order_by_columns s cat = find_missing_order_by_columns_spec s cat := by
  unfold find_missing_order_by_columns find_missing_order_by_columns_spec
  simp only [fmobLoop_spec hAll]

/-- Witness for the amended C7: a two-table catalog exercising all three
multi-table outcomes (unique column, shared column, absent column). -/
theorem c7_amended_witness :
    ([(("A".data : List Char), ["k".data, "c".data, "d".data]),
        ("B".data, ["k".data, "d".data])].all (fun p => nodupB (p.2.map upL)) = true) ∧
      find_missing_order_by_columns
          "SELECT * FROM A a JOIN B b ON a.k = b.k ORDER BY c, d, e".data
          [("A".data, ["k".data, "c".data, "d".data]), ("B".data, ["k".data, "d".data])] =
        find_missing_order_by_columns_spec
          "SELECT * FROM A a JOIN B b ON a.k = b.k ORDER BY c, d, e".data
          [("A".data, ["k".data, "c".data, "d".data]), ("B".data, ["k".data, "d".data])] :=
  ⟨by decide, c7_amended _ (by decide)⟩

/-! ## Claims C1 and C2 — the join repair raises instead of repairing

On every input where a repair is possible (a missing ORDER BY qualifier, at
least one present base table, a viable join key, a located FROM span), the
function's next step evaluates
`re.search(rf"(?i)\bjoin\s+\Q{fq_missing}\E\b", sql_text)`, and Python's `re`
(3.7+) rejects the `\Q` escape with `re.error: bad escape \Q`.  The repaired
string is therefore never built; the embedding's `Except.error ()` marks the
raise. -/

def exC1sql : List Char :=
  "SELECT * FROM DT_DRIVERS ORDER BY DT_DRIVER_PERFORMANCE.AvgSpeed".data

def exC1cat : Catalog :=
  [("DT_DRIVERS".data, ["DriverID".data, "DriverName".data]),
   ("DT_DRIVER_PERFORMANCE".data, ["DriverID".data, "AvgSpeed".data])]

/-- Claim C1 (code bug): in the claim's own scenario — catalog tables
`DT_DRIVERS`/`DT_DRIVER_PERFORMANCE` both carrying the registered preferred
key `DriverID`, a query selecting from `DT_DRIVERS` with an unreachable ORDER
BY qualifier `DT_DRIVER_PERFORMANCE` — the qualifier is detected and the
preferred join key is chosen (first two conjuncts), but
`auto_repair_missing_orderby_join` then raises `re.error` (third conjunct)
instead of returning the text with a JOIN appended: the already-joined check
uses the `\Q...\E` escape, which Python's `re` rejects. -/
theorem c1_code_bug :
    find_order_by_qualifiers_not_in_from exC1sql = ["DT_DRIVER_PERFORMANCE".data] ∧
      pickJoinBase (get_present_base_tables exC1sql) "DT_DRIVER_PERFORMANCE".data exC1cat =
        some ("DT_DRIVERS".data, "DriverID".data) ∧
      auto_repair_missing_orderby_join exC1sql "D".data "S".data exC1cat = .error () :=
  ⟨by decide, by decide, by rfl⟩

/-- Claim C2 (code bug): `auto_repair_missing_orderby_join` does *not* always
terminate without raising.  When the missing table shares no common column
with any present base table it does return `None` (second conjunct, catalog
`{A: {X}, B: {K}}`), but whenever a join key exists it raises `re.error` from
the invalid `\Q` escape before any string is returned (first conjunct,
catalog `{A: {K}, B: {K}}`). -/
theorem c2_code_bug :
    auto_repair_missing_orderby_join "SELECT * FROM A ORDER BY B.K".data
        "D".data "S".data [("A".data, ["K".data]), ("B".data, ["K".data])] = .error () ∧
      auto_repair_missing_orderby_join "SELECT * FROM A ORDER BY B.K".data
        "D".data "S".data [("A".data, ["X".data]), ("B".data, ["K".data])] = .ok none :=
  ⟨by rfl, by rfl⟩

/-! ## Claim C9 -/

/-- Claim C9 counterexample: a FROM target that already contains a `.` is
*not* left unchanged.  The qualification regex captures only the first
identifier segment after FROM, so the already-qualified check
(`'.' in ident_strip`) never sees the dots of a bare dotted path, and
`FROM A.B.T` is rewritten to `FROM "D"."S".A.B.T`. -/
theorem c9_counterexample :
    qualify_sql "SELECT * FROM A.B.T".data "D".data "S".data ≠
        "SELECT * FROM A.B.T".data ∧
      qualify_sql "SELECT * FROM A.B.T".data "D".data "S".data =
        "SELECT * FROM \"D\".\"S\".A.B.T".data :=
  ⟨by decide, by decide⟩

/-- Claim C9 (amended): `qualify_sql` leaves subquery targets (`(`-prefixed)
and stage targets (`@`-prefixed, which the pattern cannot match) unchanged,
and rewrites bare single-segment targets to the quoted `db.schema.target`
form — but, contrary to the claim, it also rewrites dotted
(already-qualified) targets and `TABLE(...)` table functions (the captured
identifier is just the word `TABLE`, so the `table(` guard never fires), and
it collapses the whitespace between the keyword and a matched target to a
single space. -/
theorem c9_amended :
    qualify_sql "SELECT * FROM (SELECT 1)".data "D".data "S".data =
        "SELECT * FROM (SELECT 1)".data ∧
      qualify_sql "SELECT * FROM @stg".data "D".data "S".data =
        "SELECT * FROM @stg".data ∧
      qualify_sql "SELECT X FROM T JOIN U ON T.A = U.A".data "D".data "S".data =
        "SELECT X FROM \"D\".\"S\".T JOIN \"D\".\"S\".U ON T.A = U.A".data ∧
      qualify_sql "SELECT * FROM TABLE(GENERATOR(1))".data "D".data "S".data =
        "SELECT * FROM \"D\".\"S\".TABLE(GENERATOR(1))".data ∧
      qualify_sql "SELECT * FROM  (SELECT 1)".data "D".data "S".data =
        "SELECT * FROM (SELECT 1)".data :=
  ⟨by decide, by decide, by decide, by decide, by decide⟩

end TechUp
